import Mathlib

/-!
Verification of the configuration / registry layer of `flair-cli`
(`src/flair_project`): the dotted-override converter `dot_to_dict`,
the function registry (`config.py`), the config loading helpers
(`utils.py`) and the `train` entry point (`cli/train.py`), shallowly
embedded in Lean and checked against the natural-language specification.
-/

namespace FlairProject

/-! ## Error messages (`errors.py`)

`Errors` uses a metaclass that prepends the code to the message on every
attribute access, so `Errors.E002` evaluates to the bracketed form below.
Messages that take `.format` arguments are modelled as functions. -/

def Errors.E001 (name path : String) : String :=
  "[E001] Could not read " ++ name ++ " from " ++ path

def Errors.E002 : String :=
  "[E002] Can't write to frozen dictionary. This is likely an internal error. Are you writing to a default function argument?"

def Errors.E101 (name available : String) : String :=
  "[E101] Unknown function registry: '" ++ name ++ "'.\n\nAvailable names: " ++ available

def Errors.E102 (name regName available : String) : String :=
  "[E102] Could not find function '" ++ name ++ "' in function registry '" ++ regName ++
    "'. If you're using a custom function, make sure the code is available. " ++
    "If the function is provided by a third-party package, e.g. , " ++
    "make sure the package is installed in your environment." ++
    "\n\nAvailable names: " ++ available

def Errors.E103 (config : String) : String :=
  "[E103] Found non-serializable Python object in config. Configs should only include values that can be serialized to JSON. If you need to pass models or other objects to your component, use a reference to a registered function or initialize the object in your component.\n\n" ++ config

def Errors.E104 : String :=
  "[E104] Can't write to frozen list. Maybe you're trying to modify a computed property or default function argument?"

/-! ## Nested dictionaries for `dot_to_dict` (`utils.py:162-176`)

A Python value reached by `dot_to_dict` is either one of the caller's
override values (kept abstract as `α`) or a nested `dict`; the `dict`s
are insertion-ordered with unique keys, modelled as association lists. -/

inductive DVal (α : Type) where
  | leaf (v : α)
  | dict (entries : List (String × DVal α))

abbrev DDict (α : Type) := List (String × DVal α)

/-- First-occurrence association lookup, the read half of `dict.setdefault`. -/
def dlookup {α : Type} : DDict α → String → Option (DVal α)
  | [], _ => none
  | (k, v) :: rest, key => if k = key then some v else dlookup rest key

/-- Replace the value stored at an existing key, in place (insertion
position preserved), mirroring mutation of a Python dict entry. -/
def dset {α : Type} : DDict α → String → DVal α → DDict α
  | [], _, _ => []
  | (k, v) :: rest, key, newv =>
      if k = key then (key, newv) :: rest else (k, v) :: dset rest key newv

/-- One `dot_to_dict` key: walk `parts` down from the current dict with
`path = path.setdefault(item, value if is_last else {})`.  At the last
segment `setdefault` inserts the value only when the key is absent
(an existing value is silently kept).  At a non-final segment the walk
descends into the existing entry; if that entry is not a dict, the next
`setdefault` call raises `AttributeError`, modelled as `none`. -/
def setPath {α : Type} : DDict α → List String → α → Option (DDict α)
  | d, [], _ => some d
  | d, [p], v =>
      match dlookup d p with
      | some _ => some d
      | none => some (d ++ [(p, .leaf v)])
  | d, p :: ps, v =>
      match dlookup d p with
      | some (.dict sub) =>
          (setPath sub ps v).map (fun sub2 => dset d p (.dict sub2))
      | some (.leaf _) => none
      | none =>
          (setPath ([] : DDict α) ps v).map (fun sub2 => d ++ [(p, .dict sub2)])

/-- Python `str.split(".")` on the character list: split at every `'.'`;
the empty string yields `[""]` and `"a..b"` yields `["a", "", "b"]`. -/
def splitOnDot : List Char → List (List Char)
  | [] => [[]]
  | c :: rest =>
      if c = '.' then [] :: splitOnDot rest
      else
        match splitOnDot rest with
        | seg :: segs => (c :: seg) :: segs
        | [] => [[c]]

/-- The dotted path of an override key, as the source computes it:
`key.lower().split(".")` (ASCII case folding, as config keys are ASCII). -/
def dotParts (key : String) : List String :=
  (splitOnDot (key.data.map Char.toLower)).map String.mk

/-- The `for key, value in values.items()` loop of `dot_to_dict`:
process the override pairs in order, aborting on `AttributeError`. -/
def dotFold {α : Type} : DDict α → List (String × α) → Option (DDict α)
  | d, [] => some d
  | d, kv :: rest =>
      match setPath d (dotParts kv.1) kv.2 with
      | some d1 => dotFold d1 rest
      | none => none

/-- `dot_to_dict` (`utils.py:162-176`): fold the override pairs, in
order, into a nested dict starting from `result = {}`; `none` models the
`AttributeError` raised when a walk descends through a non-dict value. -/
def dot_to_dict {α : Type} (values : List (String × α)) : Option (DDict α) :=
  dotFold [] values

/-- Read the value stored at a dotted path (specification-side observer:
descend through nested dicts and return what sits at the end). -/
def getPath {α : Type} : DDict α → List String → Option (DVal α)
  | d, [p] => dlookup d p
  | d, p :: ps =>
      match dlookup d p with
      | some (.dict sub) => getPath sub ps
      | _ => none
  | _, [] => none

/-- A path can be inserted freshly into `d`: the walk never meets a leaf
at an interior segment and the final key is absent at its level. -/
def canInsert {α : Type} : DDict α → List String → Bool
  | _, [] => true
  | d, [p] => (dlookup d p).isNone
  | d, p :: ps =>
      match dlookup d p with
      | some (.dict sub) => canInsert sub ps
      | some (.leaf _) => false
      | none => true

/-- Two dotted paths conflict when one is a (not necessarily proper)
prefix of the other. -/
def PathsConflict (ps qs : List String) : Prop :=
  ps <+: qs ∨ qs <+: ps

instance (ps qs : List String) : Decidable (PathsConflict ps qs) := by
  unfold PathsConflict; infer_instance

/-- An override mapping is non-conflicting when the dotted paths of any
two distinct entries do not conflict. -/
def NonConflicting {α : Type} (values : List (String × α)) : Prop :=
  (values.map (fun kv => dotParts kv.1)).Pairwise (fun ps qs => ¬ PathsConflict ps qs)

instance {α : Type} (values : List (String × α)) : Decidable (NonConflicting values) := by
  unfold NonConflicting; infer_instance

/-! ### Association-list lemmas -/

theorem dlookup_append_left {α : Type} {d : DDict α} {k : String} {x : DVal α}
    (h : dlookup d k = some x) (l : DDict α) : dlookup (d ++ l) k = some x := by
  induction d with
  | nil => simp [dlookup] at h
  | cons kv rest ih =>
      rw [dlookup] at h
      by_cases hk : kv.1 = k
      · simpa [dlookup, hk] using h
      · rw [if_neg hk] at h
        simpa [dlookup, hk] using ih h

theorem dlookup_append_none {α : Type} {d : DDict α} {k : String}
    (h : dlookup d k = none) (l : DDict α) : dlookup (d ++ l) k = dlookup l k := by
  induction d with
  | nil => simp
  | cons kv rest ih =>
      rw [dlookup] at h
      by_cases hk : kv.1 = k
      · rw [if_pos hk] at h; exact absurd h (by simp)
      · rw [if_neg hk] at h
        simpa [dlookup, hk] using ih h

theorem dlookup_dset_self {α : Type} {d : DDict α} {k : String} {x : DVal α}
    (h : dlookup d k = some x) (v : DVal α) : dlookup (dset d k v) k = some v := by
  induction d with
  | nil => simp [dlookup] at h
  | cons kv rest ih =>
      rw [dlookup] at h
      by_cases hk : kv.1 = k
      · simp [dset, hk, dlookup]
      · rw [if_neg hk] at h
        simpa [dset, hk, dlookup] using ih h

theorem dlookup_dset_ne {α : Type} (d : DDict α) {k k' : String} (v : DVal α)
    (h : k' ≠ k) : dlookup (dset d k v) k' = dlookup d k' := by
  induction d with
  | nil => simp [dset]
  | cons kv rest ih =>
      by_cases hk : kv.1 = k
      · simp [dset, hk, dlookup, Ne.symm h]
      · simp [dset, hk, dlookup, ih]

theorem dset_eq_self {α : Type} {d : DDict α} {k : String} {x : DVal α}
    (h : dlookup d k = some x) : dset d k x = d := by
  induction d with
  | nil => simp [dlookup] at h
  | cons kv rest ih =>
      obtain ⟨k1, v1⟩ := kv
      rw [dlookup] at h
      by_cases hk : k1 = k
      · subst hk
        rw [if_pos rfl] at h
        cases h
        simp [dset]
      · rw [if_neg hk] at h
        simp [dset, hk, ih h]

theorem getPath_nil_dict {α : Type} (ps : List String) : getPath ([] : DDict α) ps = none := by
  match ps with
  | [] => rfl
  | [p] => rfl
  | p :: q :: ps => rfl

theorem canInsert_nil_dict {α : Type} (ps : List String) :
    canInsert ([] : DDict α) ps = true := by
  match ps with
  | [] => rfl
  | [p] => rfl
  | p :: q :: ps => rfl

theorem splitOnDot_ne_nil (cs : List Char) : splitOnDot cs ≠ [] := by
  match cs with
  | [] => simp [splitOnDot]
  | c :: rest =>
      rw [splitOnDot]
      by_cases hc : c = '.'
      · simp [hc]
      · rw [if_neg hc]
        cases h : splitOnDot rest <;> simp

theorem dotParts_ne_nil (key : String) : dotParts key ≠ [] := by
  unfold dotParts
  simpa using splitOnDot_ne_nil _

/-! ### `setPath` lemmas -/

theorem pathsConflict_symm {ps qs : List String} (h : PathsConflict ps qs) :
    PathsConflict qs ps := h.symm

theorem ne_nil_of_not_conflict {ps qs : List String} (h : ¬ PathsConflict ps qs) :
    ps ≠ [] ∧ qs ≠ [] := by
  constructor
  · rintro rfl; exact h (Or.inl (List.nil_prefix))
  · rintro rfl; exact h (Or.inr (List.nil_prefix))

theorem not_conflict_tail {p : String} {ps qs : List String}
    (h : ¬ PathsConflict (p :: ps) (p :: qs)) : ¬ PathsConflict ps qs := by
  intro hc
  rcases hc with h1 | h1
  · exact h (Or.inl (by simpa [List.cons_prefix_cons] using h1))
  · exact h (Or.inr (by simpa [List.cons_prefix_cons] using h1))

/-- `setdefault` keeps existing values: writing to a path whose value
already exists leaves the dict unchanged (the new value is dropped). -/
theorem setPath_existing {α : Type} (v : α) :
    ∀ (ps : List String) (d : DDict α) (w : DVal α),
      getPath d ps = some w → setPath d ps v = some d
  | [p], d, w, h => by
      simp only [getPath] at h
      simp [setPath, h]
  | p :: q :: ps, d, w, h => by
      simp only [getPath] at h
      rcases hd : dlookup d p with _ | x
      · rw [hd] at h; simp at h
      · cases x with
        | leaf a => rw [hd] at h; simp at h
        | dict sub =>
            rw [hd] at h
            dsimp only at h
            simp only [setPath, hd]
            rw [setPath_existing v (q :: ps) sub w h]
            simp [dset_eq_self hd]

/-- A walk that runs past an existing leaf raises `AttributeError`
(modelled as `none`). -/
theorem setPath_past_leaf {α : Type} (v : α) :
    ∀ (qs : List String) (rest : List String) (d : DDict α) (w : α),
      rest ≠ [] → getPath d qs = some (.leaf w) →
      setPath d (qs ++ rest) v = none
  | [p], r :: rest, d, w, _, h => by
      simp only [getPath] at h
      simp [setPath, h]
  | p :: q :: qs, rest, d, w, hr, h => by
      simp only [getPath] at h
      rcases hd : dlookup d p with _ | x
      · rw [hd] at h; simp at h
      · cases x with
        | leaf a => rw [hd] at h; simp at h
        | dict sub =>
            rw [hd] at h
            dsimp only at h
            have hrec := setPath_past_leaf v (q :: qs) rest sub w hr h
            simp only [List.cons_append] at hrec ⊢
            simp only [setPath, hd]
            rw [hrec]
            rfl
  | [p], [], _, _, hr, _ => absurd rfl hr
  | [], _, d, w, _, h => by simp [getPath] at h

/-- Inserting a fresh path succeeds and places the value as a leaf at
the end of the path. -/
theorem setPath_fresh {α : Type} (v : α) :
    ∀ (ps : List String) (d : DDict α), ps ≠ [] → canInsert d ps = true →
      ∃ d', setPath d ps v = some d' ∧ getPath d' ps = some (.leaf v)
  | [], _, hne, _ => absurd rfl hne
  | [p], d, _, hc => by
      simp only [canInsert, Option.isNone_iff_eq_none] at hc
      refine ⟨d ++ [(p, .leaf v)], by simp [setPath, hc], ?_⟩
      simp only [getPath]
      rw [dlookup_append_none hc]
      simp [dlookup]
  | p :: q :: ps, d, _, hc => by
      simp only [canInsert] at hc
      rcases hd : dlookup d p with _ | x
      · obtain ⟨sub2, hs, hg⟩ :=
          setPath_fresh v (q :: ps) ([] : DDict α) (by simp) (canInsert_nil_dict _)
        refine ⟨d ++ [(p, .dict sub2)], ?_, ?_⟩
        · simp [setPath, hd, hs]
        · simp only [getPath]
          rw [dlookup_append_none hd]
          simpa [dlookup] using hg
      · cases x with
        | leaf a => rw [hd] at hc; dsimp only at hc; simp at hc
        | dict sub =>
            rw [hd] at hc
            dsimp only at hc
            obtain ⟨sub2, hs, hg⟩ := setPath_fresh v (q :: ps) sub (by simp) hc
            refine ⟨dset d p (.dict sub2), ?_, ?_⟩
            · simp [setPath, hd, hs]
            · simp only [getPath]
              rw [dlookup_dset_self hd]
              exact hg

/-- `setPath` along `p :: ps` touches only the entry at key `p`. -/
theorem setPath_dlookup_ne {α : Type} (v : α) :
    ∀ (ps : List String) (p k : String) (d d' : DDict α),
      setPath d (p :: ps) v = some d' → k ≠ p → dlookup d' k = dlookup d k
  | [], p, k, d, d', h, hk => by
      simp only [setPath] at h
      rcases hd : dlookup d p with _ | x
      · rw [hd] at h
        dsimp only at h
        cases h
        rcases hk2 : dlookup d k with _ | y
        · rw [dlookup_append_none hk2]; simp [dlookup, Ne.symm hk, hk2]
        · rw [dlookup_append_left hk2]
      · rw [hd] at h
        dsimp only at h
        cases h
        rfl
  | q :: ps, p, k, d, d', h, hk => by
      simp only [setPath] at h
      rcases hd : dlookup d p with _ | x
      · rw [hd] at h
        dsimp only at h
        rcases hs : setPath ([] : DDict α) (q :: ps) v with _ | sub2
        · rw [hs] at h; simp at h
        · rw [hs] at h
          dsimp only [Option.map] at h
          cases h
          rcases hk2 : dlookup d k with _ | y
          · rw [dlookup_append_none hk2]; simp [dlookup, Ne.symm hk, hk2]
          · rw [dlookup_append_left hk2]
      · cases x with
        | leaf a => rw [hd] at h; dsimp only at h; simp at h
        | dict sub =>
            rw [hd] at h
            dsimp only at h
            rcases hs : setPath sub (q :: ps) v with _ | sub2
            · rw [hs] at h; simp at h
            · rw [hs] at h
              dsimp only [Option.map] at h
              cases h
              exact dlookup_dset_ne d _ hk

/-- Writing a path leaves the value at any non-conflicting path intact. -/
theorem setPath_preserves_getPath {α : Type} (v : α) :
    ∀ (ps qs : List String) (d d' : DDict α) (w : DVal α),
      setPath d ps v = some d' → ¬ PathsConflict ps qs →
      getPath d qs = some w → getPath d' qs = some w
  | [], _, _, _, _, _, hconf, _ => absurd (Or.inl List.nil_prefix) hconf
  | _ :: _, [], _, _, _, _, hconf, _ => absurd (Or.inr List.nil_prefix) hconf
  | p :: ps, q :: qs, d, d', w, hs, hconf, hg => by
      by_cases hpq : q = p
      case neg =>
        have hlk : dlookup d' q = dlookup d q := setPath_dlookup_ne v ps p q d d' hs hpq
        cases qs with
        | nil => simp only [getPath] at hg ⊢; rw [hlk]; exact hg
        | cons q2 qs2 => simp only [getPath] at hg ⊢; rw [hlk]; exact hg
      case pos =>
        subst hpq
        cases ps with
        | nil => exact absurd (Or.inl (by simp [List.cons_prefix_cons])) hconf
        | cons p2 ps2 =>
        cases qs with
        | nil => exact absurd (Or.inr (by simp [List.cons_prefix_cons])) hconf
        | cons q2 qs2 =>
        simp only [setPath] at hs
        rcases hd : dlookup d q with _ | x
        · rw [hd] at hs
          dsimp only at hs
          simp [getPath, hd] at hg
        · cases x with
          | leaf a => rw [hd] at hs; dsimp only at hs; simp at hs
          | dict sub =>
              rw [hd] at hs
              dsimp only at hs
              rcases hsub : setPath sub (p2 :: ps2) v with _ | sub2
              · rw [hsub] at hs; simp at hs
              · rw [hsub] at hs
                dsimp only [Option.map] at hs
                cases hs
                simp only [getPath, hd] at hg
                simp only [getPath]
                rw [dlookup_dset_self hd]
                exact setPath_preserves_getPath v (p2 :: ps2) (q2 :: qs2) sub sub2 w
                  hsub (not_conflict_tail hconf) hg

/-- Writing a path keeps any non-conflicting path insertable. -/
theorem setPath_preserves_canInsert {α : Type} (v : α) :
    ∀ (ps qs : List String) (d d' : DDict α),
      setPath d ps v = some d' → ¬ PathsConflict ps qs →
      canInsert d qs = true → canInsert d' qs = true
  | [], _, _, _, _, hconf, _ => absurd (Or.inl List.nil_prefix) hconf
  | _ :: _, [], _, _, _, hconf, _ => absurd (Or.inr List.nil_prefix) hconf
  | p :: ps, q :: qs, d, d', hs, hconf, hc => by
      by_cases hpq : q = p
      case neg =>
        have hlk : dlookup d' q = dlookup d q := setPath_dlookup_ne v ps p q d d' hs hpq
        cases qs with
        | nil => simp only [canInsert] at hc ⊢; rw [hlk]; exact hc
        | cons q2 qs2 => simp only [canInsert] at hc ⊢; rw [hlk]; exact hc
      case pos =>
        subst hpq
        cases ps with
        | nil => exact absurd (Or.inl (by simp [List.cons_prefix_cons])) hconf
        | cons p2 ps2 =>
        cases qs with
        | nil => exact absurd (Or.inr (by simp [List.cons_prefix_cons])) hconf
        | cons q2 qs2 =>
        simp only [setPath] at hs
        rcases hd : dlookup d q with _ | x
        · rw [hd] at hs
          dsimp only at hs
          rcases hsub : setPath ([] : DDict α) (p2 :: ps2) v with _ | sub2
          · rw [hsub] at hs; simp at hs
          · rw [hsub] at hs
            dsimp only [Option.map] at hs
            cases hs
            simp only [canInsert]
            rw [dlookup_append_none hd]
            simp only [dlookup, if_pos rfl]
            exact setPath_preserves_canInsert v (p2 :: ps2) (q2 :: qs2) [] sub2
              hsub (not_conflict_tail hconf) (canInsert_nil_dict _)
        · cases x with
          | leaf a => rw [hd] at hs; dsimp only at hs; simp at hs
          | dict sub =>
              rw [hd] at hs
              dsimp only at hs
              rcases hsub : setPath sub (p2 :: ps2) v with _ | sub2
              · rw [hsub] at hs; simp at hs
              · rw [hsub] at hs
                dsimp only [Option.map] at hs
                cases hs
                simp only [canInsert, hd] at hc
                simp only [canInsert]
                rw [dlookup_dset_self hd]
                exact setPath_preserves_canInsert v (p2 :: ps2) (q2 :: qs2) sub sub2
                  hsub (not_conflict_tail hconf) hc

/-- After writing along `ps ++ rest`, some value exists at prefix `ps`. -/
theorem getPath_prefix_of_setPath {α : Type} (v : α) :
    ∀ (ps rest : List String) (d d' : DDict α), ps ≠ [] →
      setPath d (ps ++ rest) v = some d' → ∃ w, getPath d' ps = some w
  | [], _, _, _, hne, _ => absurd rfl hne
  | [p], rest, d, d', _, hs => by
      cases rest with
      | nil =>
          simp only [List.append_nil, setPath] at hs
          rcases hd : dlookup d p with _ | x
          · rw [hd] at hs
            dsimp only at hs
            cases hs
            refine ⟨.leaf v, ?_⟩
            simp only [getPath]
            rw [dlookup_append_none hd]
            simp [dlookup]
          · rw [hd] at hs
            dsimp only at hs
            cases hs
            exact ⟨x, hd⟩
      | cons r rest2 =>
          simp only [List.cons_append, List.nil_append, setPath] at hs
          rcases hd : dlookup d p with _ | x
          · rw [hd] at hs
            dsimp only at hs
            rcases hsub : setPath ([] : DDict α) (r :: rest2) v with _ | sub2
            · rw [hsub] at hs; simp at hs
            · rw [hsub] at hs
              dsimp only [Option.map] at hs
              cases hs
              refine ⟨.dict sub2, ?_⟩
              simp only [getPath]
              rw [dlookup_append_none hd]
              simp [dlookup]
          · cases x with
            | leaf a => rw [hd] at hs; dsimp only at hs; simp at hs
            | dict sub =>
                rw [hd] at hs
                dsimp only at hs
                rcases hsub : setPath sub (r :: rest2) v with _ | sub2
                · rw [hsub] at hs; simp at hs
                · rw [hsub] at hs
                  dsimp only [Option.map] at hs
                  cases hs
                  exact ⟨.dict sub2, dlookup_dset_self hd _⟩
  | p :: p2 :: ps2, rest, d, d', _, hs => by
      simp only [List.cons_append, setPath] at hs
      rcases hd : dlookup d p with _ | x
      · rw [hd] at hs
        dsimp only at hs
        simp only [List.append_eq] at hs
        rcases hsub : setPath ([] : DDict α) (p2 :: (ps2 ++ rest)) v with _ | sub2
        · rw [hsub] at hs; simp at hs
        · rw [hsub] at hs
          dsimp only [Option.map] at hs
          cases hs
          obtain ⟨w, hw⟩ := getPath_prefix_of_setPath v (p2 :: ps2) rest [] sub2 (by simp) hsub
          refine ⟨w, ?_⟩
          simp only [getPath]
          rw [dlookup_append_none hd]
          simpa [dlookup] using hw
      · cases x with
        | leaf a => rw [hd] at hs; dsimp only at hs; simp at hs
        | dict sub =>
            rw [hd] at hs
            dsimp only at hs
            simp only [List.append_eq] at hs
            rcases hsub : setPath sub (p2 :: (ps2 ++ rest)) v with _ | sub2
            · rw [hsub] at hs; simp at hs
            · rw [hsub] at hs
              dsimp only [Option.map] at hs
              cases hs
              obtain ⟨w, hw⟩ := getPath_prefix_of_setPath v (p2 :: ps2) rest sub sub2 (by simp) hsub
              refine ⟨w, ?_⟩
              simp only [getPath]
              rw [dlookup_dset_self hd]
              exact hw

/-- Main invariant of the `dot_to_dict` loop: starting from a dict into
which every remaining path is freshly insertable, the loop succeeds,
places every value at its path, and preserves non-conflicting paths. -/
theorem dotFold_correct {α : Type} :
    ∀ (values : List (String × α)) (d : DDict α),
      ((values.map fun kv => dotParts kv.1).Pairwise fun ps qs => ¬ PathsConflict ps qs) →
      (∀ kv ∈ values, canInsert d (dotParts kv.1) = true) →
      ∃ d', dotFold d values = some d' ∧
        (∀ kv ∈ values, getPath d' (dotParts kv.1) = some (.leaf kv.2)) ∧
        ∀ (qs : List String) (w : DVal α), getPath d qs = some w →
          (∀ kv ∈ values, ¬ PathsConflict (dotParts kv.1) qs) → getPath d' qs = some w
  | [], d, _, _ => ⟨d, rfl, by simp, fun _ _ hg _ => hg⟩
  | (k, v) :: rest, d, hpw, hcan => by
      simp only [List.map_cons, List.pairwise_cons] at hpw
      obtain ⟨hhead, htail⟩ := hpw
      have hheadc : ∀ kv ∈ rest, ¬ PathsConflict (dotParts k) (dotParts kv.1) :=
        fun kv hm => hhead _ (List.mem_map_of_mem _ hm)
      obtain ⟨d1, hs1, hg1⟩ :=
        setPath_fresh v (dotParts k) d (dotParts_ne_nil k) (hcan (k, v) (by simp))
      have hcan1 : ∀ kv ∈ rest, canInsert d1 (dotParts kv.1) = true := fun kv hm =>
        setPath_preserves_canInsert v (dotParts k) (dotParts kv.1) d d1 hs1
          (hheadc kv hm) (hcan kv (List.mem_cons_of_mem _ hm))
      obtain ⟨d', hfold, hplace, hpres⟩ := dotFold_correct rest d1 htail hcan1
      refine ⟨d', ?_, ?_, ?_⟩
      · simp only [dotFold, hs1]
        exact hfold
      · intro kv hm
        rcases List.mem_cons.mp hm with h | h
        · subst h
          exact hpres (dotParts k) (.leaf v) hg1 fun kv2 hm2 hcf =>
            hheadc kv2 hm2 (pathsConflict_symm hcf)
        · exact hplace kv h
      · intro qs w hg hnoc
        exact hpres qs w
          (setPath_preserves_getPath v (dotParts k) qs d d1 w hs1
            (hnoc (k, v) (by simp)) hg)
          (fun kv hm => hnoc kv (List.mem_cons_of_mem _ hm))

/-! ### Claim theorems about `dot_to_dict` -/

/-- C1 (counterexample): with the nested override `"a.b.c"` first and the
leaf override `"a.b"` second, `dot_to_dict` does not fail at all — it
returns the same nested mapping as if the leaf override were absent,
silently keeping the nested value and dropping `("a.b", 1)`. -/
theorem dot_to_dict_conflict_counterexample :
    dot_to_dict [("a.b.c", (2 : Int)), ("a.b", 1)] = dot_to_dict [("a.b.c", (2 : Int))] ∧
    dot_to_dict [("a.b.c", (2 : Int)), ("a.b", 1)] =
      some [("a", .dict [("b", .dict [("c", .leaf 2)])])] :=
  ⟨rfl, rfl⟩

/-- C1 (amended): `dot_to_dict` raises no `ConflictingOverride` error.
For two overrides where one dotted path strictly extends the other:
processed nested-path first, the later leaf override is silently dropped
(the result is as if it were absent); processed leaf first, the
conversion aborts with an `AttributeError` (modelled `none`). -/
theorem dot_to_dict_conflict_amended {α : Type} (k1 k2 : String) (v1 v2 : α)
    (rest : List String) (hrest : rest ≠ [])
    (hpre : dotParts k2 = dotParts k1 ++ rest) :
    dot_to_dict [(k2, v2), (k1, v1)] = dot_to_dict [(k2, v2)] ∧
    dot_to_dict [(k1, v1), (k2, v2)] = none := by
  constructor
  · obtain ⟨d1, hs1, hg1⟩ :=
      setPath_fresh v2 (dotParts k2) [] (dotParts_ne_nil k2) (canInsert_nil_dict _)
    obtain ⟨w, hw⟩ :=
      getPath_prefix_of_setPath v2 (dotParts k1) rest [] d1 (dotParts_ne_nil k1)
        (by rw [← hpre]; exact hs1)
    have h2 : setPath d1 (dotParts k1) v1 = some d1 :=
      setPath_existing v1 (dotParts k1) d1 w hw
    simp [dot_to_dict, dotFold, hs1, h2]
  · obtain ⟨d1, hs1, hg1⟩ :=
      setPath_fresh v1 (dotParts k1) [] (dotParts_ne_nil k1) (canInsert_nil_dict _)
    have h2 : setPath d1 (dotParts k2) v2 = none := by
      rw [hpre]
      exact setPath_past_leaf v2 (dotParts k1) rest d1 v1 hrest hg1
    simp [dot_to_dict, dotFold, hs1, h2]

/-- C1 (witness): the amended theorem applied to the concrete pair
`"a.b.c"` / `"a.b"`. -/
theorem dot_to_dict_conflict_amended_witness :
    (["c"] : List String) ≠ [] ∧ dotParts "a.b.c" = dotParts "a.b" ++ ["c"] ∧
    (dot_to_dict [("a.b.c", (2 : Int)), ("a.b", 1)] = dot_to_dict [("a.b.c", (2 : Int))] ∧
     dot_to_dict [("a.b", (1 : Int)), ("a.b.c", 2)] = none) :=
  ⟨by decide, by decide,
    dot_to_dict_conflict_amended "a.b" "a.b.c" 1 2 ["c"] (by decide) (by decide)⟩

/-- C9: for every mapping of non-conflicting dotted-path overrides,
`dot_to_dict` succeeds, and each value is placed, unmodified, as the
leaf at the path obtained from the key by lower-casing and splitting on
`"."` (`dotParts`), every non-final segment being a nested mapping
level (which is what `getPath` descends through). -/
theorem dot_to_dict_nonconflicting {α : Type} (values : List (String × α))
    (h : NonConflicting values) :
    ∃ d, dot_to_dict values = some d ∧
      ∀ kv ∈ values, getPath d (dotParts kv.1) = some (.leaf kv.2) := by
  obtain ⟨d, h1, h2, _⟩ := dotFold_correct values [] h fun kv _ => canInsert_nil_dict _
  exact ⟨d, h1, h2⟩

/-- C9 (witness): a concrete non-conflicting override mapping, with
mixed-case keys to exercise the case normalization. -/
theorem dot_to_dict_nonconflicting_witness :
    NonConflicting [("training.LR", (5 : Int)), ("training.batch_size", 8), ("system.seed", 42)] ∧
    ∃ d, dot_to_dict [("training.LR", (5 : Int)), ("training.batch_size", 8), ("system.seed", 42)] = some d ∧
      ∀ kv ∈ [("training.LR", (5 : Int)), ("training.batch_size", 8), ("system.seed", 42)],
        getPath d (dotParts kv.1) = some (.leaf kv.2) :=
  ⟨by decide, dot_to_dict_nonconflicting _ (by decide)⟩

/-! ## String ordering

Python's `sorted` on strings compares lexicographically by code point.
-/

/-- Lexicographic `≤` on character lists, by code point. -/
def charListLe : List Char → List Char → Bool
  | [], _ => true
  | _ :: _, [] => false
  | a :: as, b :: bs =>
      if a.toNat < b.toNat then true
      else if b.toNat < a.toNat then false
      else charListLe as bs

/-- Python's string `≤` (code-point lexicographic). -/
def strLe (a b : String) : Prop := charListLe a.data b.data = true

instance (a b : String) : Decidable (strLe a b) := by unfold strLe; infer_instance

theorem charListLe_total : ∀ as bs, charListLe as bs = true ∨ charListLe bs as = true
  | [], _ => Or.inl rfl
  | _ :: _, [] => Or.inr rfl
  | a :: as, b :: bs => by
      simp only [charListLe]
      rcases Nat.lt_trichotomy a.toNat b.toNat with h | h | h
      · left; simp [h]
      · have h1 : ¬ a.toNat < b.toNat := by omega
        have h2 : ¬ b.toNat < a.toNat := by omega
        rcases charListLe_total as bs with hr | hr
        · left; simp [h1, h2, hr]
        · right; simp [h1, h2, hr]
      · right; simp [h]

theorem charListLe_trans :
    ∀ as bs cs, charListLe as bs = true → charListLe bs cs = true →
      charListLe as cs = true
  | [], _, _, _, _ => rfl
  | _ :: _, [], _, h, _ => by simp [charListLe] at h
  | _ :: _, _ :: _, [], _, h => by simp [charListLe] at h
  | a :: as, b :: bs, c :: cs, h1, h2 => by
      simp only [charListLe] at h1 h2 ⊢
      by_cases hab : a.toNat < b.toNat
      · by_cases hbc : b.toNat < c.toNat
        · simp [show a.toNat < c.toNat from Nat.lt_trans hab hbc]
        · by_cases hcb : c.toNat < b.toNat
          · simp [hbc, hcb] at h2
          · simp [show a.toNat < c.toNat from by omega]
      · by_cases hba : b.toNat < a.toNat
        · simp [hab, hba] at h1
        · rw [if_neg hab, if_neg hba] at h1
          by_cases hbc : b.toNat < c.toNat
          · simp [show a.toNat < c.toNat from by omega]
          · by_cases hcb : c.toNat < b.toNat
            · simp [hbc, hcb] at h2
            · rw [if_neg hbc, if_neg hcb] at h2
              have h3 : ¬ a.toNat < c.toNat := by omega
              have h4 : ¬ c.toNat < a.toNat := by omega
              rw [if_neg h3, if_neg h4]
              exact charListLe_trans as bs cs h1 h2

instance : IsTotal String strLe := ⟨fun a b => charListLe_total a.data b.data⟩

instance : IsTrans String strLe := ⟨fun a b c => charListLe_trans a.data b.data c.data⟩

/-- `sorted(...)` on a list of strings. -/
def sortStrings (l : List String) : List String :=
  List.insertionSort strLe l

/-! ## The function registry (`config.py`) -/

/-- Generic first-occurrence association lookup (Python dict access). -/
def alookup {β : Type} : List (String × β) → String → Option β
  | [], _ => none
  | (k, v) :: rest, key => if k = key then some v else alookup rest key

/-- A catalogue partition: registered keys mapped to factories (type `φ`
kept abstract). -/
abbrev Partition (φ : Type) := List (String × φ)

/-- The class-level state of `registry` (`config.py:17`): `methods` are
the non-registry attributes visible to `hasattr` (the classmethods
defined in the class body; attributes inherited from the external
`confection.registry` base class are outside src and omitted), and
`partitions` are the catalogue registries. -/
structure RegistryClass (φ : Type) where
  methods : List String
  partitions : List (String × Partition φ)

/-- `hasattr(cls, name)`: any class attribute, method or registry. -/
def hasattrB {φ : Type} (cls : RegistryClass φ) (name : String) : Bool :=
  cls.methods.contains name || (alookup cls.partitions name).isSome

/-- `func_name.startswith("nlp.")`. -/
def startsWithNlp (s : String) : Bool := "nlp.".data.isPrefixOf s.data

/-- `name.startswith("_")`. -/
def startsWithUnderscore (s : String) : Bool :=
  match s.data with
  | '_' :: _ => true
  | _ => false

/-- Python `func_name.replace("nlp.", "nlp-legacy.")`: every
left-to-right non-overlapping occurrence of `"nlp."` is replaced, not
only a leading prefix. -/
def replaceNlpChars : List Char → List Char
  | 'n' :: 'l' :: 'p' :: '.' :: rest => "nlp-legacy.".data ++ replaceNlpChars rest
  | c :: rest => c :: replaceNlpChars rest
  | [] => []

def legacy_name (s : String) : String := ⟨replaceNlpChars s.data⟩

/-- Modelled from the spec: the fallback as the specification words it —
the key "with that prefix rewritten" to the legacy alias, i.e. only the
leading `"nlp."` replaced by `"nlp-legacy."`.  Used to compare the
spec's reading with the source's `str.replace`. -/
def prefixRewrite (s : String) : String := "nlp-legacy." ++ ⟨s.data.drop 4⟩

/-- `", ".join(names) or "none"`. -/
def availableNames (names : List String) : String :=
  let s := String.intercalate ", " names
  if s = "" then "none" else s

/-- `sorted(reg.get_all().keys())`. -/
def sortedKeys {φ : Type} (reg : Partition φ) : List String :=
  sortStrings (reg.map Prod.fst)

/-- `get_registry_names` (`config.py:37-44`): the attribute names that
hold a catalogue `Registry` and do not start with `_`, sorted. -/
def get_registry_names {φ : Type} (cls : RegistryClass φ) : List String :=
  sortStrings ((cls.partitions.map Prod.fst).filter (fun n => !(startsWithUnderscore n)))

inductive RegErr where
  | unknownRegistry (msg : String)
  | unknownFunction (msg : String)
  | attributeError
  deriving DecidableEq

/-- `registry.get` (`config.py:46-68`): unknown attribute fails with
`E101`; a known non-registry attribute would crash on `reg.get`
(`attributeError`); a registry miss retries the `str.replace`d legacy
name when the key starts with `"nlp."`, then fails with `E102` listing
the partition's registered keys, sorted. -/
def registry_get {φ : Type} (cls : RegistryClass φ) (registry_name func_name : String) :
    Except RegErr φ :=
  match alookup cls.partitions registry_name with
  | some reg =>
      match alookup reg func_name with
      | some f => .ok f
      | none =>
          if startsWithNlp func_name then
            match alookup reg (legacy_name func_name) with
            | some f => .ok f
            | none =>
                .error (.unknownFunction
                  (Errors.E102 func_name registry_name (availableNames (sortedKeys reg))))
          else
            .error (.unknownFunction
              (Errors.E102 func_name registry_name (availableNames (sortedKeys reg))))
  | none =>
      if cls.methods.contains registry_name then .error .attributeError
      else
        .error (.unknownRegistry
          (Errors.E101 registry_name (availableNames (get_registry_names cls))))

/-- `registry.has` (`config.py:105-114`); `none` models the `TypeError`
raised by `in` when the attribute found is not a registry. -/
def registry_has {φ : Type} (cls : RegistryClass φ) (registry_name func_name : String) :
    Option Bool :=
  if hasattrB cls registry_name then
    match alookup cls.partitions registry_name with
    | some reg =>
        some (if startsWithNlp func_name then
            (alookup reg func_name).isSome || (alookup reg (legacy_name func_name)).isSome
          else (alookup reg func_name).isSome)
    | none => none
  else some false

/-- `registry.create` (`config.py:27-35`): refuse any existing class
attribute, else `setattr` a fresh empty registry. -/
def registry_create {φ : Type} (cls : RegistryClass φ) (registry_name : String) :
    Except String (RegistryClass φ) :=
  if hasattrB cls registry_name then
    .error ("Registry '" ++ registry_name ++ "' already exists")
  else
    .ok { cls with partitions := cls.partitions ++ [(registry_name, [])] }

/-- The `registry` class as declared in `config.py:17-25`: eight
partitions (empty at class-body evaluation) and the five classmethods. -/
def flairRegistry : RegistryClass Nat :=
  { methods := ["create", "get_registry_names", "get", "find", "has"],
    partitions := [("factories", []), ("misc", []), ("architectures", []),
      ("reader", []), ("models", []), ("cli", []), ("optimizers", []),
      ("schedulers", [])] }

/-- A state whose `misc` partition registers only a legacy name whose
tail itself contains `"nlp."`. -/
def nlpLegacyDemo : RegistryClass Nat :=
  { methods := ["create", "get_registry_names", "get", "find", "has"],
    partitions := [("misc", [("nlp-legacy.nlp.foo", 7)])] }

/-- A state whose `misc` partition registers a plain legacy name. -/
def nlpDemo : RegistryClass Nat :=
  { methods := ["create", "get_registry_names", "get", "find", "has"],
    partitions := [("misc", [("nlp-legacy.foo", 7), ("zeta", 1)])] }

theorem alookup_append_none {β : Type} {d : List (String × β)} {k : String}
    (h : alookup d k = none) (l : List (String × β)) :
    alookup (d ++ l) k = alookup l k := by
  induction d with
  | nil => simp
  | cons kv rest ih =>
      rw [alookup] at h
      by_cases hk : kv.1 = k
      · rw [if_pos hk] at h; exact absurd h (by simp)
      · rw [if_neg hk] at h
        simpa [alookup, hk] using ih h

/-! ### Claim theorems about the registry -/

/-- C2 (counterexample): the source rewrites the key with `str.replace`,
which substitutes every occurrence of `"nlp."`, not only the prefix.
For `"nlp.nlp.foo"` the key with the prefix rewritten,
`"nlp-legacy.nlp.foo"`, is the only registered key, yet `get` fails
(it looked up `"nlp-legacy.nlp-legacy.foo"` instead). -/
theorem registry_get_prefix_counterexample :
    startsWithNlp "nlp.nlp.foo" = true ∧
    prefixRewrite "nlp.nlp.foo" = "nlp-legacy.nlp.foo" ∧
    alookup nlpLegacyDemo.partitions "misc" = some [("nlp-legacy.nlp.foo", 7)] ∧
    alookup [("nlp-legacy.nlp.foo", (7 : Nat))] (prefixRewrite "nlp.nlp.foo") = some 7 ∧
    legacy_name "nlp.nlp.foo" = "nlp-legacy.nlp-legacy.foo" ∧
    registry_get nlpLegacyDemo "misc" "nlp.nlp.foo" =
      .error (.unknownFunction (Errors.E102 "nlp.nlp.foo" "misc" "nlp-legacy.nlp.foo")) :=
  ⟨by decide, by decide, rfl, by decide, by decide, rfl⟩

/-- C2 (amended): for a lookup in a declared partition where the key is
missing and starts with `"nlp."`: if the key with every occurrence of
`"nlp."` replaced by `"nlp-legacy."` (`legacy_name`) is registered, `get`
returns that legacy factory; if not, `get` fails with `E102` whose
message enumerates the partition's registered keys sorted (code-point
order), `"none"` standing for an empty enumeration. -/
theorem registry_get_nlp_fallback {φ : Type} (cls : RegistryClass φ)
    (rname fname : String) (reg : Partition φ)
    (hreg : alookup cls.partitions rname = some reg)
    (hmiss : alookup reg fname = none)
    (hnlp : startsWithNlp fname = true) :
    (∀ f, alookup reg (legacy_name fname) = some f →
      registry_get cls rname fname = .ok f) ∧
    (alookup reg (legacy_name fname) = none →
      registry_get cls rname fname =
        .error (.unknownFunction
          (Errors.E102 fname rname (availableNames (sortedKeys reg))))) ∧
    (sortedKeys reg).Perm (reg.map Prod.fst) ∧
    (sortedKeys reg).Sorted strLe := by
  refine ⟨?_, ?_, ?_, ?_⟩
  · intro f hf
    simp [registry_get, hreg, hmiss, hnlp, hf]
  · intro hnone
    simp [registry_get, hreg, hmiss, hnlp, hnone]
  · exact List.perm_insertionSort strLe _
  · exact List.sorted_insertionSort strLe _

/-- C2 (witness): the amended theorem at a concrete registry where
`"nlp.foo"` misses but `"nlp-legacy.foo"` is registered. -/
theorem registry_get_nlp_fallback_witness :
    alookup nlpDemo.partitions "misc" = some [("nlp-legacy.foo", (7 : Nat)), ("zeta", 1)] ∧
    alookup [("nlp-legacy.foo", (7 : Nat)), ("zeta", 1)] "nlp.foo" = none ∧
    startsWithNlp "nlp.foo" = true ∧
    ((∀ f, alookup [("nlp-legacy.foo", (7 : Nat)), ("zeta", 1)] (legacy_name "nlp.foo") = some f →
        registry_get nlpDemo "misc" "nlp.foo" = .ok f) ∧
      (alookup [("nlp-legacy.foo", (7 : Nat)), ("zeta", 1)] (legacy_name "nlp.foo") = none →
        registry_get nlpDemo "misc" "nlp.foo" =
          .error (.unknownFunction
            (Errors.E102 "nlp.foo" "misc"
              (availableNames (sortedKeys [("nlp-legacy.foo", (7 : Nat)), ("zeta", 1)]))))) ∧
      (sortedKeys [("nlp-legacy.foo", (7 : Nat)), ("zeta", 1)]).Perm
        ([("nlp-legacy.foo", (7 : Nat)), ("zeta", 1)].map Prod.fst) ∧
      (sortedKeys [("nlp-legacy.foo", (7 : Nat)), ("zeta", 1)]).Sorted strLe) :=
  ⟨rfl, by decide, by decide,
    registry_get_nlp_fallback nlpDemo "misc" "nlp.foo" _ rfl (by decide) (by decide)⟩

/-- C6 (counterexample): `"nlp.nlp.foo"` with only its prefix-rewrite
`"nlp-legacy.nlp.foo"` registered: the claim's right-hand side holds
(the prefix rewrite is registered), yet `has` returns `False` because
the code's `str.replace` rewrite is `"nlp-legacy.nlp-legacy.foo"`. -/
theorem registry_has_prefix_counterexample :
    startsWithNlp "nlp.nlp.foo" = true ∧
    alookup [("nlp-legacy.nlp.foo", (7 : Nat))] (prefixRewrite "nlp.nlp.foo") = some 7 ∧
    registry_has nlpLegacyDemo "misc" "nlp.nlp.foo" = some false :=
  ⟨by decide, by decide, rfl⟩

/-- C6 (amended): when the partition name is not an attribute of the
registry class at all (in particular, never declared and not a method
name), `has` returns `False` without failing; for a declared partition,
`has` returns `True` iff the key is registered or the key starts with
`"nlp."` and its `str.replace` rewrite (every occurrence of `"nlp."`
replaced by `"nlp-legacy."`) is registered. -/
theorem registry_has_semantics {φ : Type} (cls : RegistryClass φ)
    (rname fname : String) :
    (hasattrB cls rname = false → registry_has cls rname fname = some false) ∧
    (∀ reg, alookup cls.partitions rname = some reg →
      registry_has cls rname fname =
        some ((alookup reg fname).isSome ||
          (startsWithNlp fname && (alookup reg (legacy_name fname)).isSome))) := by
  constructor
  · intro h
    simp [registry_has, h]
  · intro reg hreg
    have hattr : hasattrB cls rname = true := by simp [hasattrB, hreg]
    by_cases hn : startsWithNlp fname <;>
      simp [registry_has, hattr, hreg, hn]

/-- C6 (witness): both halves of the amended theorem at concrete
inputs: an undeclared name returns `False`; a declared partition
resolves `"nlp.foo"` through the legacy rewrite. -/
theorem registry_has_semantics_witness :
    hasattrB flairRegistry "spans" = false ∧
    registry_has flairRegistry "spans" "x" = some false ∧
    alookup nlpDemo.partitions "misc" = some [("nlp-legacy.foo", (7 : Nat)), ("zeta", 1)] ∧
    registry_has nlpDemo "misc" "nlp.foo" =
      some ((alookup [("nlp-legacy.foo", (7 : Nat)), ("zeta", 1)] "nlp.foo").isSome ||
        (startsWithNlp "nlp.foo" &&
          (alookup [("nlp-legacy.foo", (7 : Nat)), ("zeta", 1)] (legacy_name "nlp.foo")).isSome)) :=
  ⟨by decide, (registry_has_semantics flairRegistry "spans" "x").1 (by decide),
    rfl, (registry_has_semantics nlpDemo "misc" "nlp.foo").2 _ rfl⟩

/-- The state after `registry.create("_hidden")` succeeds. -/
def flairWithHidden : RegistryClass Nat :=
  { flairRegistry with partitions := flairRegistry.partitions ++ [("_hidden", [])] }

/-- C7 (counterexample): `"_hidden"` was never declared, `create`
succeeds, yet the new partition does not appear in the sorted
`get_registry_names` listing (names starting with `_` are filtered
out). -/
theorem registry_create_counterexample :
    alookup flairRegistry.partitions "_hidden" = none ∧
    registry_create flairRegistry "_hidden" = .ok flairWithHidden ∧
    alookup flairWithHidden.partitions "_hidden" = some [] ∧
    get_registry_names flairWithHidden =
      ["architectures", "cli", "factories", "misc", "models", "optimizers",
        "reader", "schedulers"] ∧
    "_hidden" ∉ get_registry_names flairWithHidden :=
  ⟨rfl, rfl, by decide, by decide, by decide⟩

/-- C7 (amended): declaring a partition whose name already exists as a
partition always fails with the duplicate-registry `ValueError`;
declaring a name that is not an existing class attribute succeeds, and
the new partition appears in the sorted `get_registry_names` listing
provided its name does not start with `"_"` (underscore-prefixed
partitions are created but omitted from the listing). -/
theorem registry_create_semantics {φ : Type} (cls : RegistryClass φ)
    (rname : String) :
    ((alookup cls.partitions rname).isSome = true →
      registry_create cls rname = .error ("Registry '" ++ rname ++ "' already exists")) ∧
    (hasattrB cls rname = false →
      ∃ cls', registry_create cls rname = .ok cls' ∧
        alookup cls'.partitions rname = some [] ∧
        (startsWithUnderscore rname = false → rname ∈ get_registry_names cls') ∧
        (get_registry_names cls').Sorted strLe) := by
  constructor
  · intro h
    have hattr : hasattrB cls rname = true := by simp [hasattrB, h]
    simp [registry_create, hattr]
  · intro h
    have hnone : alookup cls.partitions rname = none := by
      simp only [hasattrB, Bool.or_eq_false_iff] at h
      exact Option.not_isSome_iff_eq_none.mp (by simp [h.2])
    refine ⟨{ cls with partitions := cls.partitions ++ [(rname, [])] },
      by simp [registry_create, h], ?_, ?_, ?_⟩
    · rw [alookup_append_none hnone]
      simp [alookup]
    · intro hu
      have hmem : rname ∈ (cls.partitions.map Prod.fst ++ [rname]).filter
          (fun n => !(startsWithUnderscore n)) := by
        rw [List.mem_filter]
        exact ⟨by simp, by simp [hu]⟩
      unfold get_registry_names sortStrings
      rw [(List.perm_insertionSort strLe _).mem_iff]
      simpa using hmem
    · exact List.sorted_insertionSort strLe _

/-- C7 (witness): the amended theorem at concrete inputs: re-declaring
`"misc"` fails; declaring the fresh `"spans"` succeeds and is listed. -/
theorem registry_create_semantics_witness :
    (alookup flairRegistry.partitions "misc").isSome = true ∧
    hasattrB flairRegistry "spans" = false ∧
    registry_create flairRegistry "misc" = .error "Registry 'misc' already exists" ∧
    (∃ cls', registry_create flairRegistry "spans" = .ok cls' ∧
      alookup cls'.partitions "spans" = some [] ∧
      (startsWithUnderscore "spans" = false → "spans" ∈ get_registry_names cls') ∧
      (get_registry_names cls').Sorted strLe) :=
  ⟨by decide, by decide,
    (registry_create_semantics flairRegistry "misc").1 (by decide),
    (registry_create_semantics flairRegistry "spans").2 (by decide)⟩

/-! ## Config loading (`utils.py:102-127`) and the `train` command
(`cli/train.py:29-68`) -/

/-- Canonical section order (`utils.py:11-21`). -/
def CONFIG_SECTION_ORDER : List String :=
  ["paths", "variables", "system", "nlp", "components", "corpora",
    "training", "pretraining", "initialize"]

/-- Where a loaded document's content came from (the parsing itself is
done by the external `confection` library and is kept abstract). -/
inductive ConfigSource where
  | fromStr (text : String)
  | fromDisk (path : String)
  deriving DecidableEq

/-- A `Config` object as far as `load_config` determines it: the
section order it was constructed with, and the source handed to
`from_str` / `from_disk`. -/
structure ConfigDoc where
  section_order : List String
  source : ConfigSource
  deriving DecidableEq

/-- The filesystem as the two predicates the code consults
(`Path.exists()` and `Path.is_file()`). -/
structure FileSystem where
  pathExists : String → Bool
  pathIsFile : String → Bool

/-- `load_config` (`utils.py:102-127`): `"-"` reads standard input
(`stdinText`); otherwise a missing or non-file path raises
`IOError(E001)`; a `None` path is falsy and also raises `E001`.  The
`Config` is always constructed with `section_order=CONFIG_SECTION_ORDER`.
The `overrides`/`interpolate` arguments are applied inside confection's
`from_str`/`from_disk` (external) and are left out of the model. -/
def load_config (fs : FileSystem) (path : Option String) (stdinText : String) :
    Except String ConfigDoc :=
  match path with
  | Option.none => .error (Errors.E001 "config file" "None")
  | some p =>
      if p = "-" then
        .ok { section_order := CONFIG_SECTION_ORDER, source := .fromStr stdinText }
      else if fs.pathIsFile p then
        .ok { section_order := CONFIG_SECTION_ORDER, source := .fromDisk p }
      else .error (Errors.E001 "config file" p)

/-- A value in the resolved document: a numeric scalar, an opaque
resolved object, or Python `None`. -/
inductive RVal where
  | num (q : ℚ)
  | obj (id : Nat)
  | nothing
  deriving DecidableEq

/-- A resolved top-level section. -/
abbrev RSection := List (String × RVal)

/-- The exact argument tuple `train` passes to
`ModelTrainer(...)`/`trainer.fine_tune(...)` (`cli/train.py:58-68`). -/
structure FineTuneCall where
  model : RVal
  corpus : RVal
  base_path : Option String
  learning_rate : RVal
  mini_batch_size : RVal
  max_epochs : RVal
  optimizer : RVal
  scheduler : RVal
  deriving DecidableEq

/-- Lines 53-68 of `cli/train.py`: read `resolved["training"]` and
`resolved["system"]` (a missing section raises `KeyError`, modelled
`none`), build the trainer from `training["model"]`/`training["corpus"]`
(missing keys raise `KeyError`), and call `fine_tune` with `.get`
defaults `lr=0.1`, `batch_size=1`, `max_epochs=1`, `optimizer=None`,
`scheduler=None`. -/
def trainCall (resolved : List (String × RSection)) (output_path : Option String) :
    Option FineTuneCall :=
  match alookup resolved "training" with
  | Option.none => Option.none
  | some training =>
      match alookup resolved "system" with
      | Option.none => Option.none
      | some _ =>
          match alookup training "model", alookup training "corpus" with
          | some m, some c =>
              some { model := m, corpus := c, base_path := output_path,
                     learning_rate := (alookup training "lr").getD (.num (1 / 10)),
                     mini_batch_size := (alookup training "batch_size").getD (.num 1),
                     max_epochs := (alookup training "max_epochs").getD (.num 1),
                     optimizer := (alookup training "optimizer").getD .nothing,
                     scheduler := (alookup training "scheduler").getD .nothing }
          | _, _ => Option.none

/-- Outcome of the `train` entry point. -/
inductive TrainResult where
  | configNotFound (path : String)
  | loadError (msg : String)
  | resolveError
  | keyError
  | finetune (call : FineTuneCall)
  deriving DecidableEq

/-- `train` (`cli/train.py:29-68`): the existence check fails fast with
`msg.fail(..., exits=1)` before loading; then `load_config`, then
`registry.resolve` (external `confection`, abstracted as the `resolve`
argument), then the `fine_tune` call. -/
def train (fs : FileSystem) (resolve : ConfigDoc → Option (List (String × RSection)))
    (config_path : Option String) (output_path : Option String)
    (stdinText : String) : TrainResult :=
  match config_path with
  | Option.none => .configNotFound "None"
  | some p =>
      if p ≠ "-" ∧ fs.pathExists p = false then .configNotFound p
      else
        match load_config fs (some p) stdinText with
        | .error m => .loadError m
        | .ok cfg =>
            match resolve cfg with
            | Option.none => .resolveError
            | some resolved =>
                match trainCall resolved output_path with
                | Option.none => .keyError
                | some call => .finetune call

/-- An empty filesystem (no path exists). -/
def fsEmpty : FileSystem := ⟨fun _ => false, fun _ => false⟩

/-- Modelled from the spec: the serializer of the external `confection`
`Config` (not under src) emits known sections in the order given by
`section_order` and appends the remaining sections alphabetically. -/
def serializedSectionOrder (order : List String) (sections : List String) : List String :=
  order.filter (fun s => sections.contains s) ++
    sortStrings (sections.filter (fun s => !(order.contains s)))

/-- C3: whenever `train` reaches the `fine_tune` call, the call receives
exactly the resolved `training["model"]` and `training["corpus"]`
objects, the optional output path, and the scalar hyperparameters of
the training section, with defaults `lr=0.1`, `batch_size=1`,
`max_epochs=1` (and `None` optimizer/scheduler) when absent. -/
theorem train_fine_tune_contract (resolved : List (String × RSection))
    (output : Option String) (training : RSection) (call : FineTuneCall)
    (htr : alookup resolved "training" = some training)
    (hcall : trainCall resolved output = some call) :
    (∃ m, alookup training "model" = some m ∧ call.model = m) ∧
    (∃ c, alookup training "corpus" = some c ∧ call.corpus = c) ∧
    call.base_path = output ∧
    (alookup training "lr" = none → call.learning_rate = .num (1 / 10)) ∧
    (∀ x, alookup training "lr" = some x → call.learning_rate = x) ∧
    (alookup training "batch_size" = none → call.mini_batch_size = .num 1) ∧
    (∀ x, alookup training "batch_size" = some x → call.mini_batch_size = x) ∧
    (alookup training "max_epochs" = none → call.max_epochs = .num 1) ∧
    (∀ x, alookup training "max_epochs" = some x → call.max_epochs = x) ∧
    (alookup training "optimizer" = none → call.optimizer = .nothing) ∧
    (∀ x, alookup training "optimizer" = some x → call.optimizer = x) ∧
    (alookup training "scheduler" = none → call.scheduler = .nothing) ∧
    (∀ x, alookup training "scheduler" = some x → call.scheduler = x) := by
  simp only [trainCall, htr] at hcall
  rcases hsys : alookup resolved "system" with _ | s
  · rw [hsys] at hcall; dsimp only at hcall; exact absurd hcall (by simp)
  · rw [hsys] at hcall
    dsimp only at hcall
    rcases hm : alookup training "model" with _ | m
    · rw [hm] at hcall; dsimp only at hcall; exact absurd hcall (by simp)
    · rcases hc : alookup training "corpus" with _ | c
      · rw [hm, hc] at hcall; dsimp only at hcall; exact absurd hcall (by simp)
      · rw [hm, hc] at hcall
        dsimp only at hcall
        rw [Option.some.injEq] at hcall
        subst hcall
        refine ⟨⟨m, rfl, rfl⟩, ⟨c, rfl, rfl⟩, rfl, ?_, ?_, ?_, ?_, ?_, ?_, ?_, ?_, ?_, ?_⟩ <;>
          first
            | (intro h; simp [h])
            | (intro x h; simp [h])

/-- A concrete training section: explicit `batch_size`, defaults for
everything else. -/
def trainingDemo : RSection :=
  [("model", RVal.obj 1), ("corpus", RVal.obj 2), ("batch_size", RVal.num 32)]

/-- A concrete resolved document. -/
def resolvedDemo : List (String × RSection) :=
  [("system", []), ("training", trainingDemo)]

/-- The `fine_tune` call that `train` makes on `resolvedDemo`. -/
def callDemo : FineTuneCall :=
  { model := RVal.obj 1, corpus := RVal.obj 2, base_path := some "out",
    learning_rate := RVal.num (1 / 10), mini_batch_size := RVal.num 32,
    max_epochs := RVal.num 1, optimizer := RVal.nothing,
    scheduler := RVal.nothing }

/-- C3 (witness): a concrete resolved document exercising both an
explicit hyperparameter (`batch_size=32`) and the defaults. -/
theorem train_fine_tune_contract_witness :
    alookup resolvedDemo "training" = some trainingDemo ∧
    trainCall resolvedDemo (some "out") = some callDemo ∧
    ((∃ m, alookup trainingDemo "model" = some m ∧ callDemo.model = m) ∧
      (∃ c, alookup trainingDemo "corpus" = some c ∧ callDemo.corpus = c) ∧
      callDemo.base_path = some "out") := by
  refine ⟨rfl, rfl, ?_⟩
  have h := train_fine_tune_contract resolvedDemo (some "out") trainingDemo callDemo rfl rfl
  exact ⟨h.1, h.2.1, h.2.2.1⟩

/-- C4: a config path that is not `"-"` and does not exist fails fast
(`msg.fail(..., exits=1)`) before `load_config`, `registry.resolve` or
the trainer run; and `load_config` itself raises `IOError(E001)` for a
path that is not a file.  The quantification over `resolve` shows no
resolution step is consulted. -/
theorem train_fail_fast (fs : FileSystem)
    (resolve : ConfigDoc → Option (List (String × RSection)))
    (p : String) (out : Option String) (stdin0 : String)
    (hdash : p ≠ "-") (hex : fs.pathExists p = false)
    (hfile : fs.pathIsFile p = false) :
    train fs resolve (some p) out stdin0 = .configNotFound p ∧
    load_config fs (some p) stdin0 = .error (Errors.E001 "config file" p) := by
  constructor
  · simp [train, hdash, hex]
  · simp [load_config, hdash, hfile]

/-- C4 (witness): the fail-fast theorem at a concrete missing path. -/
theorem train_fail_fast_witness :
    ("missing.cfg" : String) ≠ "-" ∧
    fsEmpty.pathExists "missing.cfg" = false ∧
    fsEmpty.pathIsFile "missing.cfg" = false ∧
    (train fsEmpty (fun _ => Option.none) (some "missing.cfg") Option.none "" =
        .configNotFound "missing.cfg" ∧
      load_config fsEmpty (some "missing.cfg") "" =
        .error (Errors.E001 "config file" "missing.cfg")) :=
  ⟨by decide, rfl, rfl,
    train_fail_fast fsEmpty (fun _ => Option.none) "missing.cfg" Option.none ""
      (by decide) rfl rfl⟩

/-- C5: the canonical section order is exactly the nine listed sections;
every document produced by `load_config` carries that order; and the
(spec-modelled) serializer emits the known sections in that order
followed by the unknown sections sorted alphabetically. -/
theorem config_section_order_canonical :
    CONFIG_SECTION_ORDER =
      ["paths", "variables", "system", "nlp", "components", "corpora",
        "training", "pretraining", "initialize"] ∧
    (∀ fs path stdin0 cfg, load_config fs path stdin0 = .ok cfg →
      cfg.section_order = CONFIG_SECTION_ORDER) ∧
    (∀ sections : List String,
      serializedSectionOrder CONFIG_SECTION_ORDER sections =
        CONFIG_SECTION_ORDER.filter (fun s => sections.contains s) ++
          sortStrings (sections.filter fun s => !(CONFIG_SECTION_ORDER.contains s)) ∧
      (sortStrings (sections.filter fun s => !(CONFIG_SECTION_ORDER.contains s))).Sorted strLe ∧
      (sortStrings (sections.filter fun s => !(CONFIG_SECTION_ORDER.contains s))).Perm
        (sections.filter fun s => !(CONFIG_SECTION_ORDER.contains s))) := by
  refine ⟨rfl, ?_, ?_⟩
  · intro fs path stdin0 cfg h
    match path with
    | Option.none => exact absurd h (by simp [load_config])
    | some p =>
        rw [load_config] at h
        split_ifs at h with h1 h2
        · rw [Except.ok.injEq] at h
          subst h
          rfl
        · rw [Except.ok.injEq] at h
          subst h
          rfl
  · intro sections
    exact ⟨rfl, List.sorted_insertionSort strLe _, List.perm_insertionSort strLe _⟩

/-- C5 (witness): loading from standard input yields a document carrying
the canonical order. -/
theorem config_section_order_canonical_witness :
    load_config fsEmpty (some "-") "x" =
      .ok { section_order := CONFIG_SECTION_ORDER, source := .fromStr "x" } ∧
    ({ section_order := CONFIG_SECTION_ORDER,
       source := .fromStr "x" } : ConfigDoc).section_order = CONFIG_SECTION_ORDER :=
  ⟨rfl, config_section_order_canonical.2.1 fsEmpty (some "-") "x" _ rfl⟩

/-! ## `copy_config` (`utils.py:130-140`) -/

/-- A Python value stored in a config document: JSON-compatible
scalars, lists and mappings, or a live (non-serializable) object. -/
inductive PyVal where
  | null
  | boolv (b : Bool)
  | numv (q : ℚ)
  | strv (s : String)
  | listv (items : List PyVal)
  | dictv (entries : List (String × PyVal))
  | objv (id : Nat)

mutual

/-- Whether a value is representable as JSON. -/
def jsonOk : PyVal → Bool
  | .null => true
  | .boolv _ => true
  | .numv _ => true
  | .strv _ => true
  | .objv _ => false
  | .listv items => jsonOkList items
  | .dictv entries => jsonOkEntries entries

def jsonOkList : List PyVal → Bool
  | [] => true
  | v :: rest => jsonOk v && jsonOkList rest

def jsonOkEntries : List (String × PyVal) → Bool
  | [] => true
  | kv :: rest => jsonOk kv.2 && jsonOkEntries rest

end

inductive CopyErr where
  | nonSerializable
  deriving DecidableEq

/-- Modelled from the spec: `Config(config).copy()` of the external
`confection` library (not under src) produces a deep, independent copy
of the document and raises `ValueError` when any leaf is not
representable as a JSON-compatible scalar, list, or mapping. -/
def confection_copy (config : List (String × PyVal)) :
    Except Unit (List (String × PyVal)) :=
  if jsonOkEntries config then .ok config else .error ()

/-- `copy_config` (`utils.py:130-140`): delegate to
`Config(config).copy()` and re-raise its `ValueError` as the
`NonSerializable` config error (`E103`). -/
def copy_config (config : List (String × PyVal)) :
    Except CopyErr (List (String × PyVal)) :=
  match confection_copy config with
  | .ok c => .ok c
  | .error _ => .error .nonSerializable

/-- C8: copying succeeds, returning an equal (deeply copied) document,
exactly when all leaves are JSON-representable; otherwise it fails with
the `NonSerializable` error. -/
theorem copy_config_semantics (config : List (String × PyVal)) :
    (jsonOkEntries config = true → copy_config config = .ok config) ∧
    (jsonOkEntries config = false → copy_config config = .error .nonSerializable) := by
  constructor
  · intro h
    simp [copy_config, confection_copy, h]
  · intro h
    simp [copy_config, confection_copy, h]

/-- C8 (witness): a JSON-only document copies to itself; a document
holding a live object fails. -/
theorem copy_config_semantics_witness :
    jsonOkEntries [("a", PyVal.numv 1), ("b", PyVal.listv [PyVal.strv "x"])] = true ∧
    copy_config [("a", PyVal.numv 1), ("b", PyVal.listv [PyVal.strv "x"])] =
      .ok [("a", PyVal.numv 1), ("b", PyVal.listv [PyVal.strv "x"])] ∧
    jsonOkEntries [("model", PyVal.objv 0)] = false ∧
    copy_config [("model", PyVal.objv 0)] = .error .nonSerializable :=
  ⟨rfl,
    (copy_config_semantics [("a", PyVal.numv 1), ("b", PyVal.listv [PyVal.strv "x"])]).1 rfl,
    rfl,
    (copy_config_semantics [("model", PyVal.objv 0)]).2 rfl⟩

/-! ## `SimpleFrozenDict` (`utils.py:65-87`) -/

/-- A frozen dict: the stored entries plus the configured mutation
error message. -/
structure SimpleFrozenDict (β : Type) where
  entries : List (String × β)
  error : String
  deriving DecidableEq

/-- `__init__` with the default `error: str = Errors.E002`. -/
def SimpleFrozenDict.init {β : Type} (entries : List (String × β)) :
    SimpleFrozenDict β :=
  ⟨entries, Errors.E002⟩

/-- `__setitem__` (`utils.py:80-81`): raises `NotImplementedError`
before touching the contents; the pair is (raised result, post-state). -/
def SimpleFrozenDict.setitem {β : Type} (d : SimpleFrozenDict β)
    (_key : String) (_value : β) : Except String Unit × SimpleFrozenDict β :=
  (.error d.error, d)

/-- `pop` (`utils.py:83-84`): raises `NotImplementedError`. -/
def SimpleFrozenDict.pop {β : Type} (d : SimpleFrozenDict β)
    (_key : String) (_default : Option β) : Except String β × SimpleFrozenDict β :=
  (.error d.error, d)

/-- `update` (`utils.py:86-87`): raises `NotImplementedError`. -/
def SimpleFrozenDict.update {β : Type} (d : SimpleFrozenDict β)
    (_other : List (String × β)) : Except String Unit × SimpleFrozenDict β :=
  (.error d.error, d)

/-- C10: on any `SimpleFrozenDict` and any arguments, `__setitem__`,
`pop` and `update` raise `NotImplementedError` carrying the configured
error message, the contents are unchanged, and the default message is
`Errors.E002`. -/
theorem frozen_dict_raises {β : Type} (d : SimpleFrozenDict β) (key : String)
    (value : β) (dflt : Option β) (other : List (String × β)) :
    (d.setitem key value).1 = .error d.error ∧ (d.setitem key value).2 = d ∧
    (d.pop key dflt).1 = .error d.error ∧ (d.pop key dflt).2 = d ∧
    (d.update other).1 = .error d.error ∧ (d.update other).2 = d ∧
    (SimpleFrozenDict.init d.entries).error = Errors.E002 :=
  ⟨rfl, rfl, rfl, rfl, rfl, rfl, rfl⟩

end FlairProject
